import Mathlib

/-!
Verification of the asynchronous clipboard data-transfer pipeline of
fcitx5's wayland clipboard module (`src/modules/clipboard/waylandclipboard.h`).

The data model (`DataOfferTask`, `DataReaderThread`, `DataOffer` fields) is
embedded from the header. The method bodies (`addTask`, `removeTask`,
`handleTaskIO`, `handleTaskTimeout`, the finalize path and
`DataOffer::receiveData`) live in `waylandclipboard.cpp`, which is not among
the provided sources; those operations are modelled from the specification,
as marked on each definition. The worker loop and the main loop are each
single threaded, and all cross-thread communication is message passing, so
the system is modelled as a step function on a global state consuming one
message/event at a time and emitting observable actions (callback
deliveries tagged with the thread they run on, fd closes, task creations).
-/

namespace WaylandClipboard

/-- A generation-checked weak reference to a `DataOffer`
(`TrackableObjectReference<DataOffer>`, waylandclipboard.h line 53): a stable
slot id plus the generation expected to be live in that slot. -/
structure TrackableObjectReference where
  slot : Nat
  gen : Nat
deriving DecidableEq, Repr

/-- The set of live offers, as (slot, generation) pairs.  Destroying an offer
removes its pair, so stale references no longer resolve. -/
abbrev OfferTable := List (Nat × Nat)

/-- Resolution of a generation-checked weak reference: it is valid iff the
(slot, generation) pair is still live. -/
def isValid (table : OfferTable) (r : TrackableObjectReference) : Bool :=
  table.contains (r.slot, r.gen)

/-- One in-flight read task (`struct DataOfferTask`, waylandclipboard.h lines
44-59): its id, the weak reference to the owning offer, the exclusively owned
file descriptor and the accumulating byte buffer.  The stored callback is
identified by the task id in the observable actions; the IO and timeout
event sources are modelled by the `ioChunk`/`ioEof`/`timeout` events. -/
structure DataOfferTask where
  id_ : Nat
  offer_ : TrackableObjectReference
  fd_ : Nat
  data_ : List Nat
deriving DecidableEq, Repr

/-- The worker thread state (`class DataReaderThread`, waylandclipboard.h
lines 61-104): the id counter `nextId_` (initialised to 1), the private task
registry `tasks_`, and whether the loop has processed the exit request. -/
structure DataReaderThread where
  nextId_ : Nat
  tasks_ : List DataOfferTask
  stopped : Bool
deriving DecidableEq, Repr

/-- Global state: the worker plus the table of live offers (owned by the
main thread; the worker only resolves weak references against it). -/
structure SysState where
  worker : DataReaderThread
  offers : OfferTable
deriving DecidableEq, Repr

/-- The thread an observable action runs on. -/
inductive ExecThread where
  | main
  | worker
deriving DecidableEq, Repr

/-- Events processed by the system, one at a time: the two cross-thread
requests (`addTask`, `removeTask`), the worker-loop wakeups (a bounded IO
chunk, EOF/read error, the per-task timeout), destruction of an offer on the
main thread, and the shutdown request issued by the destructor. -/
inductive Event where
  | addTask (offer : TrackableObjectReference) (fd : Nat)
  | removeTask (id : Nat)
  | ioChunk (id : Nat) (bytes : List Nat)
  | ioEof (id : Nat)
  | timeout (id : Nat)
  | destroyOffer (slot : Nat)
  | shutdown
deriving DecidableEq, Repr

/-- Observable actions: creation of a registry entry for a task id, delivery
of the stored callback with the accumulated bytes, and the close of a task's
file descriptor; deliveries and closes are tagged with the thread on which
they happen. -/
inductive Action where
  | created (id : Nat)
  | callbackFired (id : Nat) (bytes : List Nat) (thread : ExecThread)
  | fdClosed (id : Nat) (fd : Nat) (thread : ExecThread)
deriving DecidableEq, Repr

/-- Look a task up in the registry by id. -/
def findTask (tasks : List DataOfferTask) (id : Nat) : Option DataOfferTask :=
  tasks.find? (fun t => t.id_ == id)

/-- Erase a task from the registry by id. -/
def eraseTask (tasks : List DataOfferTask) (id : Nat) : List DataOfferTask :=
  tasks.filter (fun t => t.id_ != id)

/-- Apply `f` to the task with the given id, leaving the rest unchanged. -/
def updateTask (tasks : List DataOfferTask) (id : Nat)
    (f : DataOfferTask → DataOfferTask) : List DataOfferTask :=
  tasks.map (fun t => if t.id_ == id then f t else t)

/-- Modelled from the spec: the finalize step of the worker (the body of the
EOF/timeout paths of `DataReaderThread::handleTaskIO` and
`DataReaderThread::handleTaskTimeout` is in waylandclipboard.cpp, not among
the provided sources).  Finalize resolves the task's weak offer reference; if
still valid it marshals the accumulated bytes to the main thread where the
stored callback is invoked, and if stale it drops the result silently; in
both cases it removes the task from the registry and closes the fd on the
worker thread. -/
def finalizeTask (s : SysState) (id : Nat) : SysState × List Action :=
  match findTask s.worker.tasks_ id with
  | none => (s, [])
  | some t =>
      (⟨{ s.worker with tasks_ := eraseTask s.worker.tasks_ id }, s.offers⟩,
       (if isValid s.offers t.offer_ then
          [Action.callbackFired id t.data_ ExecThread.main]
        else []) ++ [Action.fdClosed id t.fd_ ExecThread.worker])

/-- Modelled from the spec: the transition function of the pipeline (the
bodies of `DataReaderThread::addTask`, `removeTask`, `realRun`,
`addTaskOnWorker`, `handleTaskIO` and `handleTaskTimeout` are in
waylandclipboard.cpp, not among the provided sources).  `addTask` allocates
the next id and creates the registry entry with an empty buffer;
`removeTask` closes the fd and erases the entry if present and is a no-op
otherwise; an IO wakeup appends one bounded chunk to the task's buffer; EOF
and timeout finalize; destroying an offer invalidates its live (slot, gen)
pair; shutdown closes the fd of every pending task without delivering any
callback and stops the loop.  Once stopped, the worker processes nothing:
`addTask` degrades to an id allocation with no task (WorkerUnavailable) and
no event produces an action. -/
def step (s : SysState) (e : Event) : SysState × List Action :=
  if s.worker.stopped then
    match e with
    | Event.addTask _ _ =>
        (⟨{ s.worker with nextId_ := s.worker.nextId_ + 1 }, s.offers⟩, [])
    | Event.destroyOffer slot =>
        (⟨s.worker, s.offers.filter (fun p => p.1 != slot)⟩, [])
    | _ => (s, [])
  else
    match e with
    | Event.addTask offer fd =>
        (⟨{ nextId_ := s.worker.nextId_ + 1,
            tasks_ := { id_ := s.worker.nextId_, offer_ := offer, fd_ := fd,
                        data_ := [] } :: s.worker.tasks_,
            stopped := false }, s.offers⟩,
         [Action.created s.worker.nextId_])
    | Event.removeTask id =>
        match findTask s.worker.tasks_ id with
        | none => (s, [])
        | some t =>
            (⟨{ s.worker with tasks_ := eraseTask s.worker.tasks_ id },
              s.offers⟩,
             [Action.fdClosed id t.fd_ ExecThread.worker])
    | Event.ioChunk id bytes =>
        (⟨{ s.worker with
            tasks_ := updateTask s.worker.tasks_ id
              (fun t => { t with data_ := t.data_ ++ bytes }) }, s.offers⟩,
         [])
    | Event.ioEof id => finalizeTask s id
    | Event.timeout id => finalizeTask s id
    | Event.destroyOffer slot =>
        (⟨s.worker, s.offers.filter (fun p => p.1 != slot)⟩, [])
    | Event.shutdown =>
        (⟨{ nextId_ := s.worker.nextId_, tasks_ := [], stopped := true },
          s.offers⟩,
         s.worker.tasks_.map
           (fun t => Action.fdClosed t.id_ t.fd_ ExecThread.worker))

/-- Run a sequence of events, collecting the emitted actions in order. -/
def run (s : SysState) : List Event → SysState × List Action
  | [] => (s, [])
  | e :: es =>
      ((run (step s e).1 es).1, (step s e).2 ++ (run (step s e).1 es).2)

/-- The ids returned, in order, by the `addTask` calls of an event list
(`addTask` returns the current `nextId_` and increments it). -/
def idsIssued (s : SysState) : List Event → List Nat
  | [] => []
  | Event.addTask o fd :: es =>
      s.worker.nextId_ :: idsIssued (step s (Event.addTask o fd)).1 es
  | e :: es => idsIssued (step s e).1 es

/-- A freshly started pipeline: `nextId_ = 1`, empty registry, running
worker, with an arbitrary table of live offers. -/
def initState (offers : OfferTable) : SysState :=
  ⟨{ nextId_ := 1, tasks_ := [], stopped := false }, offers⟩

/-- Whether a task id currently has a registry entry. -/
def inReg (s : SysState) (id : Nat) : Bool :=
  (findTask s.worker.tasks_ id).isSome

/-- Recognise a callback delivery for a given task id. -/
def isCallbackFor (id : Nat) : Action → Bool
  | Action.callbackFired i _ _ => i == id
  | _ => false

/-- Recognise an fd close for a given task id. -/
def isCloseFor (id : Nat) : Action → Bool
  | Action.fdClosed i _ _ => i == id
  | _ => false

/-- Recognise the creation of a registry entry for a given task id. -/
def isCreateFor (id : Nat) : Action → Bool
  | Action.created i => i == id
  | _ => false

/-- Every callback delivery in the list happens on the main thread. -/
def callbacksOnMain (acts : List Action) : Bool :=
  acts.all fun a =>
    match a with
    | Action.callbackFired _ _ th => th == ExecThread.main
    | _ => true

/-- Every fd close in the list happens on the worker thread. -/
def closesOnWorker (acts : List Action) : Bool :=
  acts.all fun a =>
    match a with
    | Action.fdClosed _ _ th => th == ExecThread.worker
    | _ => true

/-- Well-formedness of a state: the id counter is at least 1, every
registered task has an id below the counter, and registered ids are
pairwise distinct. -/
@[reducible] def WF (s : SysState) : Prop :=
  1 ≤ s.worker.nextId_ ∧
  (∀ t ∈ s.worker.tasks_, t.id_ < s.worker.nextId_) ∧
  (s.worker.tasks_.map (fun t => t.id_)).Nodup

theorem findTask_cons (t : DataOfferTask) (ts : List DataOfferTask) (id : Nat) :
    findTask (t :: ts) id = if t.id_ = id then some t else findTask ts id := by
  by_cases h : t.id_ = id
  · simp [findTask, List.find?, h]
  · have hb : (t.id_ == id) = false := by simp [h]
    simp [findTask, List.find?, hb, h]

theorem eraseTask_cons (t : DataOfferTask) (ts : List DataOfferTask) (id : Nat) :
    eraseTask (t :: ts) id =
      if t.id_ = id then eraseTask ts id else t :: eraseTask ts id := by
  by_cases h : t.id_ = id
  · simp [eraseTask, List.filter, h]
  · have hb : (t.id_ != id) = true := by simp [h]
    simp [eraseTask, List.filter, hb, h]

theorem updateTask_cons (t : DataOfferTask) (ts : List DataOfferTask) (id : Nat)
    (f : DataOfferTask → DataOfferTask) :
    updateTask (t :: ts) id f =
      (if t.id_ = id then f t else t) :: updateTask ts id f := by
  by_cases h : t.id_ = id <;> simp [updateTask, List.map, h]

theorem findTask_eq_none (ts : List DataOfferTask) (id : Nat)
    (h : ∀ t ∈ ts, t.id_ ≠ id) : findTask ts id = none := by
  apply List.find?_eq_none.mpr
  intro t ht
  simpa using h t ht

theorem findTask_eraseTask_self (ts : List DataOfferTask) (id : Nat) :
    findTask (eraseTask ts id) id = none := by
  apply findTask_eq_none
  intro t ht
  have := List.of_mem_filter ht
  simpa using this

theorem findTask_eraseTask_ne (ts : List DataOfferTask) (id id0 : Nat)
    (h : id ≠ id0) : findTask (eraseTask ts id0) id = findTask ts id := by
  induction ts with
  | nil => rfl
  | cons t ts ih =>
      by_cases ht : t.id_ = id0
      · have hne : t.id_ ≠ id := by omega
        rw [eraseTask_cons, if_pos ht, ih, findTask_cons, if_neg hne]
      · rw [eraseTask_cons, if_neg ht, findTask_cons, findTask_cons]
        by_cases hid : t.id_ = id
        · rw [if_pos hid, if_pos hid]
        · rw [if_neg hid, if_neg hid, ih]

theorem findTask_updateTask_self (ts : List DataOfferTask) (id : Nat)
    (f : DataOfferTask → DataOfferTask) (hf : ∀ t, (f t).id_ = t.id_) :
    findTask (updateTask ts id f) id = (findTask ts id).map f := by
  induction ts with
  | nil => rfl
  | cons t ts ih =>
      rw [updateTask_cons, findTask_cons, findTask_cons]
      by_cases h : t.id_ = id <;> simp [h, hf t, ih]

theorem findTask_updateTask_ne (ts : List DataOfferTask) (id id0 : Nat)
    (f : DataOfferTask → DataOfferTask) (hf : ∀ t, (f t).id_ = t.id_)
    (h : id ≠ id0) : findTask (updateTask ts id0 f) id = findTask ts id := by
  induction ts with
  | nil => rfl
  | cons t ts ih =>
      rw [updateTask_cons, findTask_cons, findTask_cons]
      by_cases ht : t.id_ = id0
      · have hid : t.id_ ≠ id := by omega
        simp [ht, hid, hf t, ih, Ne.symm h]
      · rw [if_neg ht]
        by_cases hid : t.id_ = id <;> simp [hid, ih]

theorem countP_taskid_of_nodup (ts : List DataOfferTask) (id : Nat)
    (h : (ts.map (fun t => t.id_)).Nodup) :
    ts.countP (fun t => t.id_ == id) = ((findTask ts id).isSome).toNat := by
  induction ts with
  | nil => simp [findTask]
  | cons t ts ih =>
      simp only [List.map, List.nodup_cons] at h
      obtain ⟨hnotin, hnd⟩ := h
      rw [List.countP_cons, findTask_cons, ih hnd]
      by_cases hid : t.id_ = id
      · have hz : findTask ts id = none := by
          apply findTask_eq_none
          intro u hu hc
          exact hnotin (by rw [hid, ← hc]; exact List.mem_map_of_mem _ hu)
        rw [hz]
        simp [hid]
      · simp [hid]

theorem eraseTask_map_id_sublist (ts : List DataOfferTask) (id : Nat) :
    ((eraseTask ts id).map (fun t => t.id_)).Sublist
      (ts.map (fun t => t.id_)) :=
  List.Sublist.map _ (List.filter_sublist ts)

theorem updateTask_map_id (ts : List DataOfferTask) (id : Nat)
    (f : DataOfferTask → DataOfferTask) (hf : ∀ t, (f t).id_ = t.id_) :
    (updateTask ts id f).map (fun t => t.id_) = ts.map (fun t => t.id_) := by
  induction ts with
  | nil => rfl
  | cons t ts ih =>
      rw [updateTask_cons]
      by_cases h : t.id_ = id <;> simp [h, hf t, ih]

theorem step_stopped (s : SysState) (e : Event)
    (hs : s.worker.stopped = true) :
    (step s e).2 = [] ∧ (step s e).1.worker.stopped = true ∧
      (step s e).1.worker.tasks_ = s.worker.tasks_ ∧
      s.worker.nextId_ ≤ (step s e).1.worker.nextId_ := by
  cases e <;> simp [step, hs]

theorem step_addTask (s : SysState) (o : TrackableObjectReference) (fd : Nat)
    (hs : s.worker.stopped = false) :
    step s (Event.addTask o fd) =
      (⟨{ nextId_ := s.worker.nextId_ + 1,
          tasks_ := { id_ := s.worker.nextId_, offer_ := o, fd_ := fd,
                      data_ := [] } :: s.worker.tasks_,
          stopped := false }, s.offers⟩,
       [Action.created s.worker.nextId_]) := by
  simp [step, hs]

theorem step_removeTask_none (s : SysState) (id : Nat)
    (hs : s.worker.stopped = false)
    (hfind : findTask s.worker.tasks_ id = none) :
    step s (Event.removeTask id) = (s, []) := by
  simp [step, hs, hfind]

theorem step_removeTask_some (s : SysState) (id : Nat) (t : DataOfferTask)
    (hs : s.worker.stopped = false)
    (hfind : findTask s.worker.tasks_ id = some t) :
    step s (Event.removeTask id) =
      (⟨{ s.worker with tasks_ := eraseTask s.worker.tasks_ id }, s.offers⟩,
       [Action.fdClosed id t.fd_ ExecThread.worker]) := by
  simp [step, hs, hfind]

theorem step_ioChunk (s : SysState) (id : Nat) (bytes : List Nat)
    (hs : s.worker.stopped = false) :
    step s (Event.ioChunk id bytes) =
      (⟨{ s.worker with
          tasks_ := updateTask s.worker.tasks_ id
            (fun t => { t with data_ := t.data_ ++ bytes }) }, s.offers⟩,
       []) := by
  simp [step, hs]

theorem step_ioEof (s : SysState) (id : Nat)
    (hs : s.worker.stopped = false) :
    step s (Event.ioEof id) = finalizeTask s id := by
  simp [step, hs]

theorem step_timeout (s : SysState) (id : Nat)
    (hs : s.worker.stopped = false) :
    step s (Event.timeout id) = finalizeTask s id := by
  simp [step, hs]

theorem finalizeTask_none (s : SysState) (id : Nat)
    (hfind : findTask s.worker.tasks_ id = none) :
    finalizeTask s id = (s, []) := by
  simp [finalizeTask, hfind]

theorem finalizeTask_some (s : SysState) (id : Nat) (t : DataOfferTask)
    (hfind : findTask s.worker.tasks_ id = some t) :
    finalizeTask s id =
      (⟨{ s.worker with tasks_ := eraseTask s.worker.tasks_ id }, s.offers⟩,
       (if isValid s.offers t.offer_ then
          [Action.callbackFired id t.data_ ExecThread.main]
        else []) ++ [Action.fdClosed id t.fd_ ExecThread.worker]) := by
  simp [finalizeTask, hfind]

theorem step_destroyOffer (s : SysState) (slot : Nat)
    (hs : s.worker.stopped = false) :
    step s (Event.destroyOffer slot) =
      (⟨s.worker, s.offers.filter (fun p => p.1 != slot)⟩, []) := by
  simp [step, hs]

theorem step_shutdown (s : SysState) (hs : s.worker.stopped = false) :
    step s Event.shutdown =
      (⟨{ nextId_ := s.worker.nextId_, tasks_ := [], stopped := true },
        s.offers⟩,
       s.worker.tasks_.map
         (fun t => Action.fdClosed t.id_ t.fd_ ExecThread.worker)) := by
  simp [step, hs]

theorem step_nextId_le (s : SysState) (e : Event) :
    s.worker.nextId_ ≤ (step s e).1.worker.nextId_ := by
  cases hs : s.worker.stopped
  · cases e <;> simp [step, hs]
    case removeTask id =>
      cases hfind : findTask s.worker.tasks_ id <;> simp [hfind]
    case ioEof id =>
      cases hfind : findTask s.worker.tasks_ id <;>
        simp [finalizeTask, hfind]
    case timeout id =>
      cases hfind : findTask s.worker.tasks_ id <;>
        simp [finalizeTask, hfind]
  · cases e <;> simp [step, hs]

theorem step_threads (s : SysState) (e : Event) :
    callbacksOnMain (step s e).2 = true ∧
      closesOnWorker (step s e).2 = true := by
  cases hs : s.worker.stopped
  · cases e <;> simp [step, hs, callbacksOnMain, closesOnWorker]
    case removeTask id =>
      cases hfind : findTask s.worker.tasks_ id <;>
        simp [hfind, callbacksOnMain, closesOnWorker]
    case ioEof id =>
      cases hfind : findTask s.worker.tasks_ id <;>
        simp [finalizeTask, hfind, callbacksOnMain, closesOnWorker] <;>
        cases isValid s.offers _ <;> simp [callbacksOnMain, closesOnWorker]
    case timeout id =>
      cases hfind : findTask s.worker.tasks_ id <;>
        simp [finalizeTask, hfind, callbacksOnMain, closesOnWorker] <;>
        cases isValid s.offers _ <;> simp [callbacksOnMain, closesOnWorker]
  · cases e <;> simp [step, hs, callbacksOnMain, closesOnWorker]


theorem step_wf (s : SysState) (e : Event) (hwf : WF s) : WF (step s e).1 := by
  obtain ⟨h1, h2, h3⟩ := hwf
  cases hs : s.worker.stopped
  case true =>
    obtain ⟨-, -, hts, hnext⟩ := step_stopped s e hs
    refine ⟨le_trans h1 hnext, ?_, ?_⟩
    · intro t ht
      rw [hts] at ht
      exact lt_of_lt_of_le (h2 t ht) hnext
    · rw [hts]
      exact h3
  case false =>
    cases e
    case addTask o fd =>
      rw [step_addTask s o fd hs]
      dsimp only
      refine ⟨Nat.le_succ_of_le h1, ?_, ?_⟩
      · intro t ht
        rcases List.mem_cons.mp ht with rfl | hmem
        · exact Nat.lt_succ_self _
        · exact Nat.lt_succ_of_lt (h2 t hmem)
      · rw [List.map_cons]
        refine List.nodup_cons.mpr ⟨?_, h3⟩
        intro hmem
        rcases List.mem_map.mp hmem with ⟨u, hu, hq⟩
        have := h2 u hu
        dsimp only at hq
        omega
    case removeTask id =>
      cases hfind : findTask s.worker.tasks_ id
      case none =>
        rw [step_removeTask_none s id hs hfind]
        exact ⟨h1, h2, h3⟩
      case some t =>
        rw [step_removeTask_some s id t hs hfind]
        dsimp only
        refine ⟨h1, ?_, ?_⟩
        · intro u hu
          exact h2 u (List.mem_of_mem_filter hu)
        · exact List.Nodup.sublist (eraseTask_map_id_sublist s.worker.tasks_ id) h3
    case ioChunk id bytes =>
      rw [step_ioChunk s id bytes hs]
      dsimp only
      refine ⟨h1, ?_, ?_⟩
      · intro u hu
        rcases List.mem_map.mp hu with ⟨v, hv, rfl⟩
        have hv2 := h2 v hv
        by_cases h : v.id_ = id
        · simpa [h] using hv2
        · simpa [h] using hv2
      · dsimp only
        rw [updateTask_map_id s.worker.tasks_ id
              (fun t => { t with data_ := t.data_ ++ bytes }) (fun t => rfl)]
        exact h3
    case ioEof id =>
      rw [step_ioEof s id hs]
      cases hfind : findTask s.worker.tasks_ id
      case none =>
        rw [finalizeTask_none s id hfind]
        exact ⟨h1, h2, h3⟩
      case some t =>
        rw [finalizeTask_some s id t hfind]
        dsimp only
        refine ⟨h1, ?_, ?_⟩
        · intro u hu
          exact h2 u (List.mem_of_mem_filter hu)
        · exact List.Nodup.sublist (eraseTask_map_id_sublist s.worker.tasks_ id) h3
    case timeout id =>
      rw [step_timeout s id hs]
      cases hfind : findTask s.worker.tasks_ id
      case none =>
        rw [finalizeTask_none s id hfind]
        exact ⟨h1, h2, h3⟩
      case some t =>
        rw [finalizeTask_some s id t hfind]
        dsimp only
        refine ⟨h1, ?_, ?_⟩
        · intro u hu
          exact h2 u (List.mem_of_mem_filter hu)
        · exact List.Nodup.sublist (eraseTask_map_id_sublist s.worker.tasks_ id) h3
    case destroyOffer slot =>
      rw [step_destroyOffer s slot hs]
      exact ⟨h1, h2, h3⟩
    case shutdown =>
      rw [step_shutdown s hs]
      refine ⟨h1, ?_, ?_⟩
      · dsimp only
        intro t ht
        simp at ht
      · dsimp only
        simp


theorem toNat_le_one (b : Bool) : b.toNat ≤ 1 := by cases b <;> simp

theorem step_create_facts (s : SysState) (e : Event) (id : Nat) :
    (step s e).2.countP (isCreateFor id) ≤ 1 ∧
      ((step s e).2.countP (isCreateFor id) = 1 →
        id < (step s e).1.worker.nextId_) ∧
      (id < s.worker.nextId_ → (step s e).2.countP (isCreateFor id) = 0) := by
  cases hs : s.worker.stopped
  case true =>
    obtain ⟨ha, -, -, -⟩ := step_stopped s e hs
    rw [ha]
    simp
  case false =>
    cases e
    case addTask o fd =>
      rw [step_addTask s o fd hs]
      dsimp only
      by_cases h : s.worker.nextId_ = id
      · simp [List.countP_cons, isCreateFor, h]
      · simp [List.countP_cons, isCreateFor, h]
    case removeTask id0 =>
      cases hfind : findTask s.worker.tasks_ id0
      case none =>
        rw [step_removeTask_none s id0 hs hfind]
        simp
      case some t =>
        rw [step_removeTask_some s id0 t hs hfind]
        simp [List.countP_cons, isCreateFor]
    case ioChunk id0 bytes =>
      rw [step_ioChunk s id0 bytes hs]
      simp
    case ioEof id0 =>
      rw [step_ioEof s id0 hs]
      cases hfind : findTask s.worker.tasks_ id0
      case none =>
        rw [finalizeTask_none s id0 hfind]
        simp
      case some t =>
        rw [finalizeTask_some s id0 t hfind]
        cases hv : isValid s.offers t.offer_ <;>
          simp [List.countP_cons, List.countP_append, isCreateFor]
    case timeout id0 =>
      rw [step_timeout s id0 hs]
      cases hfind : findTask s.worker.tasks_ id0
      case none =>
        rw [finalizeTask_none s id0 hfind]
        simp
      case some t =>
        rw [finalizeTask_some s id0 t hfind]
        cases hv : isValid s.offers t.offer_ <;>
          simp [List.countP_cons, List.countP_append, isCreateFor]
    case destroyOffer slot =>
      rw [step_destroyOffer s slot hs]
      simp
    case shutdown =>
      rw [step_shutdown s hs]
      dsimp only
      rw [List.countP_map]
      have hz : (isCreateFor id ∘ fun t =>
          Action.fdClosed t.id_ t.fd_ ExecThread.worker)
            = fun _ : DataOfferTask => false := by
        funext t; rfl
      rw [hz]
      simp

theorem step_cb_le_close (s : SysState) (e : Event) (id : Nat) :
    (step s e).2.countP (isCallbackFor id) ≤
      (step s e).2.countP (isCloseFor id) := by
  cases hs : s.worker.stopped
  case true =>
    obtain ⟨ha, -, -, -⟩ := step_stopped s e hs
    rw [ha]
    simp
  case false =>
    cases e
    case addTask o fd =>
      rw [step_addTask s o fd hs]
      simp [List.countP_cons, isCallbackFor, isCloseFor]
    case removeTask id0 =>
      cases hfind : findTask s.worker.tasks_ id0
      case none =>
        rw [step_removeTask_none s id0 hs hfind]
        simp
      case some t =>
        rw [step_removeTask_some s id0 t hs hfind]
        simp [List.countP_cons, isCallbackFor, isCloseFor]
    case ioChunk id0 bytes =>
      rw [step_ioChunk s id0 bytes hs]
      simp
    case ioEof id0 =>
      rw [step_ioEof s id0 hs]
      cases hfind : findTask s.worker.tasks_ id0
      case none =>
        rw [finalizeTask_none s id0 hfind]
        simp
      case some t =>
        rw [finalizeTask_some s id0 t hfind]
        cases hv : isValid s.offers t.offer_ <;>
          simp [List.countP_cons, List.countP_append, isCallbackFor, isCloseFor]
    case timeout id0 =>
      rw [step_timeout s id0 hs]
      cases hfind : findTask s.worker.tasks_ id0
      case none =>
        rw [finalizeTask_none s id0 hfind]
        simp
      case some t =>
        rw [finalizeTask_some s id0 t hfind]
        cases hv : isValid s.offers t.offer_ <;>
          simp [List.countP_cons, List.countP_append, isCallbackFor, isCloseFor]
    case destroyOffer slot =>
      rw [step_destroyOffer s slot hs]
      simp
    case shutdown =>
      rw [step_shutdown s hs]
      dsimp only
      rw [List.countP_map]
      have hz : (isCallbackFor id ∘ fun t =>
          Action.fdClosed t.id_ t.fd_ ExecThread.worker)
            = fun _ : DataOfferTask => false := by
        funext t; rfl
      rw [hz]
      simp

theorem step_cons (s : SysState) (e : Event) (id : Nat) (hwf : WF s) :
    (step s e).2.countP (isCloseFor id) + (inReg (step s e).1 id).toNat
      = (step s e).2.countP (isCreateFor id) + (inReg s id).toNat := by
  obtain ⟨h1, h2, h3⟩ := hwf
  cases hs : s.worker.stopped
  case true =>
    obtain ⟨ha, -, hts, -⟩ := step_stopped s e hs
    rw [ha]
    simp [inReg, hts]
  case false =>
    cases e
    case addTask o fd =>
      rw [step_addTask s o fd hs]
      dsimp only
      by_cases h : s.worker.nextId_ = id
      · have hnone : findTask s.worker.tasks_ id = none := by
          apply findTask_eq_none
          intro t ht
          have := h2 t ht
          omega
        simp [inReg, findTask_cons, h, hnone, isCreateFor, isCloseFor]
      · simp [inReg, findTask_cons, h, isCreateFor, isCloseFor]
    case removeTask id0 =>
      cases hfind : findTask s.worker.tasks_ id0
      case none =>
        rw [step_removeTask_none s id0 hs hfind]
        simp
      case some t =>
        rw [step_removeTask_some s id0 t hs hfind]
        dsimp only
        by_cases h : id0 = id
        · subst h
          simp [inReg, findTask_eraseTask_self, hfind, isCloseFor, isCreateFor]
        · simp [inReg,
            findTask_eraseTask_ne s.worker.tasks_ id id0 (Ne.symm h),
            isCloseFor, isCreateFor, h]
    case ioChunk id0 bytes =>
      rw [step_ioChunk s id0 bytes hs]
      dsimp only
      by_cases h : id0 = id
      · subst h
        simp only [inReg, List.countP_nil]
        rw [findTask_updateTask_self s.worker.tasks_ id0
              (fun t => { t with data_ := t.data_ ++ bytes }) (fun t => rfl)]
        simp
      · simp only [inReg, List.countP_nil]
        rw [findTask_updateTask_ne s.worker.tasks_ id id0
              (fun t => { t with data_ := t.data_ ++ bytes }) (fun t => rfl)
              (Ne.symm h)]
    case ioEof id0 =>
      rw [step_ioEof s id0 hs]
      cases hfind : findTask s.worker.tasks_ id0
      case none =>
        rw [finalizeTask_none s id0 hfind]
        simp
      case some t =>
        rw [finalizeTask_some s id0 t hfind]
        dsimp only
        by_cases h : id0 = id
        · subst h
          cases hv : isValid s.offers t.offer_ <;>
            simp [inReg, findTask_eraseTask_self, hfind,
              List.countP_cons, List.countP_append, isCloseFor, isCreateFor]
        · cases hv : isValid s.offers t.offer_ <;>
            simp [inReg,
              findTask_eraseTask_ne s.worker.tasks_ id id0 (Ne.symm h),
              List.countP_cons, List.countP_append, isCloseFor, isCreateFor, h]
    case timeout id0 =>
      rw [step_timeout s id0 hs]
      cases hfind : findTask s.worker.tasks_ id0
      case none =>
        rw [finalizeTask_none s id0 hfind]
        simp
      case some t =>
        rw [finalizeTask_some s id0 t hfind]
        dsimp only
        by_cases h : id0 = id
        · subst h
          cases hv : isValid s.offers t.offer_ <;>
            simp [inReg, findTask_eraseTask_self, hfind,
              List.countP_cons, List.countP_append, isCloseFor, isCreateFor]
        · cases hv : isValid s.offers t.offer_ <;>
            simp [inReg,
              findTask_eraseTask_ne s.worker.tasks_ id id0 (Ne.symm h),
              List.countP_cons, List.countP_append, isCloseFor, isCreateFor, h]
    case destroyOffer slot =>
      rw [step_destroyOffer s slot hs]
      simp [inReg]
    case shutdown =>
      rw [step_shutdown s hs]
      dsimp only
      rw [List.countP_map, List.countP_map]
      have hclose : (isCloseFor id ∘ fun t =>
          Action.fdClosed t.id_ t.fd_ ExecThread.worker)
            = fun t : DataOfferTask => t.id_ == id := by
        funext t; rfl
      have hcreate : (isCreateFor id ∘ fun t =>
          Action.fdClosed t.id_ t.fd_ ExecThread.worker)
            = fun _ : DataOfferTask => false := by
        funext t; rfl
      rw [hclose, hcreate, countP_taskid_of_nodup s.worker.tasks_ id h3]
      simp [inReg, findTask]


theorem run_nil (s : SysState) : run s [] = (s, []) := rfl

theorem run_cons_ev (s : SysState) (e : Event) (es : List Event) :
    run s (e :: es) =
      ((run (step s e).1 es).1, (step s e).2 ++ (run (step s e).1 es).2) :=
  rfl

theorem run_append (s : SysState) (evs1 evs2 : List Event) :
    run s (evs1 ++ evs2)
      = ((run (run s evs1).1 evs2).1,
         (run s evs1).2 ++ (run (run s evs1).1 evs2).2) := by
  induction evs1 generalizing s with
  | nil => simp [run]
  | cons e es ih =>
      simp only [List.cons_append, run_cons_ev, ih, List.append_assoc]

theorem run_wf (s : SysState) (evs : List Event) (hwf : WF s) :
    WF (run s evs).1 := by
  induction evs generalizing s with
  | nil => exact hwf
  | cons e es ih => exact ih (step s e).1 (step_wf s e hwf)

theorem run_nextId_le (s : SysState) (evs : List Event) :
    s.worker.nextId_ ≤ (run s evs).1.worker.nextId_ := by
  induction evs generalizing s with
  | nil => exact le_refl _
  | cons e es ih =>
      exact le_trans (step_nextId_le s e) (ih (step s e).1)

theorem run_threads (s : SysState) (evs : List Event) :
    callbacksOnMain (run s evs).2 = true ∧
      closesOnWorker (run s evs).2 = true := by
  induction evs generalizing s with
  | nil => exact ⟨rfl, rfl⟩
  | cons e es ih =>
      obtain ⟨hm, hw⟩ := step_threads s e
      obtain ⟨hm2, hw2⟩ := ih (step s e).1
      rw [run_cons_ev]
      constructor
      · simp only [callbacksOnMain, List.all_append]
        simp only [callbacksOnMain] at hm hm2
        rw [hm, hm2]
        rfl
      · simp only [closesOnWorker, List.all_append]
        simp only [closesOnWorker] at hw hw2
        rw [hw, hw2]
        rfl

theorem run_conserve (s : SysState) (evs : List Event) (id : Nat)
    (hwf : WF s) :
    (run s evs).2.countP (isCloseFor id) + (inReg (run s evs).1 id).toNat
      = (run s evs).2.countP (isCreateFor id) + (inReg s id).toNat := by
  induction evs generalizing s with
  | nil => simp [run]
  | cons e es ih =>
      have hstep := step_cons s e id hwf
      have hrest := ih (step s e).1 (step_wf s e hwf)
      rw [run_cons_ev]
      simp only [List.countP_append]
      omega

theorem run_create0 (s : SysState) (evs : List Event) (id : Nat)
    (hid : id < s.worker.nextId_) :
    (run s evs).2.countP (isCreateFor id) = 0 := by
  induction evs generalizing s with
  | nil => simp [run]
  | cons e es ih =>
      have h3 := (step_create_facts s e id).2.2 hid
      have hnext : id < (step s e).1.worker.nextId_ :=
        lt_of_lt_of_le hid (step_nextId_le s e)
      rw [run_cons_ev]
      simp only [List.countP_append]
      rw [h3, ih (step s e).1 hnext]

theorem run_create1 (s : SysState) (evs : List Event) (id : Nat) :
    (run s evs).2.countP (isCreateFor id) ≤ 1 := by
  induction evs generalizing s with
  | nil => simp [run]
  | cons e es ih =>
      obtain ⟨hle, h1, -⟩ := step_create_facts s e id
      rw [run_cons_ev]
      simp only [List.countP_append]
      by_cases hz : (step s e).2.countP (isCreateFor id) = 0
      · have := ih (step s e).1
        omega
      · have heq : (step s e).2.countP (isCreateFor id) = 1 := by omega
        have := run_create0 (step s e).1 es id (h1 heq)
        omega

theorem run_cb_le_close (s : SysState) (evs : List Event) (id : Nat) :
    (run s evs).2.countP (isCallbackFor id) ≤
      (run s evs).2.countP (isCloseFor id) := by
  induction evs generalizing s with
  | nil => simp [run]
  | cons e es ih =>
      have hstep := step_cb_le_close s e id
      have hrest := ih (step s e).1
      rw [run_cons_ev]
      simp only [List.countP_append]
      omega

theorem inReg_lt_nextId (s : SysState) (id : Nat) (hwf : WF s)
    (h : inReg s id = true) : id < s.worker.nextId_ := by
  obtain ⟨-, h2, -⟩ := hwf
  unfold inReg at h
  cases hfind : findTask s.worker.tasks_ id with
  | none => rw [hfind] at h; simp at h
  | some t =>
      unfold findTask at hfind
      have hmem : t ∈ s.worker.tasks_ := List.mem_of_find?_eq_some hfind
      have hp := List.find?_some hfind
      have hq : t.id_ = id := by simpa using hp
      rw [← hq]
      exact h2 t hmem

theorem run_close1 (s : SysState) (evs : List Event) (id : Nat)
    (hwf : WF s) : (run s evs).2.countP (isCloseFor id) ≤ 1 := by
  have hcons := run_conserve s evs id hwf
  have hc1 := run_create1 s evs id
  cases hreg : inReg s id
  · rw [hreg] at hcons
    have hb := toNat_le_one (inReg (run s evs).1 id)
    simp only [Bool.toNat_false] at hcons
    omega
  · have hid := inReg_lt_nextId s id hwf hreg
    have hz := run_create0 s evs id hid
    rw [hreg, hz] at hcons
    simp only [Bool.toNat_true] at hcons
    omega

theorem run_cb1 (s : SysState) (evs : List Event) (id : Nat) (hwf : WF s) :
    (run s evs).2.countP (isCallbackFor id) ≤ 1 :=
  le_trans (run_cb_le_close s evs id) (run_close1 s evs id hwf)

theorem run_dead0 (s : SysState) (evs : List Event) (id : Nat) (hwf : WF s)
    (hreg : inReg s id = false) (hid : id < s.worker.nextId_) :
    (run s evs).2.countP (isCallbackFor id) = 0 ∧
      (run s evs).2.countP (isCloseFor id) = 0 := by
  have hcons := run_conserve s evs id hwf
  have hcr := run_create0 s evs id hid
  have hcb := run_cb_le_close s evs id
  rw [hreg, hcr] at hcons
  simp only [Bool.toNat_false] at hcons
  omega

theorem run_stopped (s : SysState) (evs : List Event)
    (hs : s.worker.stopped = true) :
    (run s evs).2 = [] ∧ (run s evs).1.worker.stopped = true ∧
      (run s evs).1.worker.tasks_ = s.worker.tasks_ := by
  induction evs generalizing s with
  | nil => exact ⟨rfl, hs, rfl⟩
  | cons e es ih =>
      obtain ⟨ha, hstop, hts, -⟩ := step_stopped s e hs
      obtain ⟨ra, rstop, rts⟩ := ih (step s e).1 hstop
      rw [run_cons_ev]
      refine ⟨?_, rstop, ?_⟩
      · rw [ha, ra]
        rfl
      · rw [rts, hts]


/-- Modelled from the spec: the password-hint MIME identifier checked by
`DataOffer::receiveData` (body in waylandclipboard.cpp, not among the
provided sources). -/
def passwordHintMime : String := "x-kde-passwordManagerHint"

/-- Modelled from the spec: the fixed MIME preference order used by
`DataOffer::receiveData` — UTF-8 text first, then other text types; the
password-hint type is negotiable last, so an offer advertising only the
password hint still produces a read whose result reports isPassword. -/
def mimePreference : List String :=
  ["text/plain;charset=utf-8", "text/plain", "text/html", passwordHintMime]

/-- The best MIME of an advertised set: the first entry of the fixed
preference order that the offer advertises. -/
def selectMime (mimes : List String) : Option String :=
  mimePreference.find? (fun m => mimes.contains m)

/-- Outcome of a `receiveData` call: either an immediate callback with the
given bytes and password flag, or the creation of one worker read task for
the chosen MIME with the password flag latched before any data is read. -/
inductive ReceiveOutcome where
  | immediate (bytes : List Nat) (password : Bool)
  | startTask (mime : String) (password : Bool)
deriving DecidableEq, Repr

/-- Modelled from the spec: `DataOffer::receiveData` (body in
waylandclipboard.cpp, not among the provided sources).  It sets isPassword
when any advertised MIME matches the password hint, selects the best MIME by
the fixed preference order; with no acceptable MIME it invokes the callback
immediately with empty bytes and isPassword = false and creates no task,
otherwise it creates exactly one read task. -/
def receiveData (mimes : List String) : ReceiveOutcome :=
  match selectMime mimes with
  | none => ReceiveOutcome.immediate [] false
  | some m => ReceiveOutcome.startTask m (mimes.contains passwordHintMime)

/-- The (bytes, isPassword) pair the consumer callback observes for a given
payload, given the outcome of `receiveData`: the password flag was latched
before any data was read, so it does not depend on the payload. -/
def deliveredResult (o : ReceiveOutcome) (payload : List Nat) :
    List Nat × Bool :=
  match o with
  | ReceiveOutcome.immediate bytes pw => (bytes, pw)
  | ReceiveOutcome.startTask _ pw => (payload, pw)

/-- Whether the worker `std::thread` object exists and is joinable
(`DataReaderThread::thread_`, waylandclipboard.h line 98). -/
structure WorkerThreadHandle where
  joinable : Bool
deriving DecidableEq, Repr

/-- The destruction-relevant state of a `DataReaderThread`: `thread_` is
null until `start()` is called (waylandclipboard.h lines 77-79, 98). -/
structure ThreadLifecycle where
  thread_ : Option WorkerThreadHandle
deriving DecidableEq, Repr

/-- The cross-thread operations `~DataReaderThread` can perform. -/
inductive DtorOp where
  | scheduleLoopExit
  | joinThread
deriving DecidableEq, Repr

/-- The destructor `~DataReaderThread` (waylandclipboard.h lines 66-75):
only when `thread_` exists and is joinable does it schedule the loop-exit
message on the worker dispatcher and join the thread; otherwise it performs
neither operation. -/
def destructorOps (s : ThreadLifecycle) : List DtorOp :=
  match s.thread_ with
  | some t =>
      if t.joinable then [DtorOp.scheduleLoopExit, DtorOp.joinThread]
      else []
  | none => []

/-- A freshly constructed `DataReaderThread`: `thread_` is null. -/
def newReaderThread : ThreadLifecycle := ⟨none⟩

/-- `DataReaderThread::start()` (waylandclipboard.h lines 77-79): creates
the worker thread, which is then joinable. -/
def startReaderThread (_s : ThreadLifecycle) : ThreadLifecycle :=
  ⟨some ⟨true⟩⟩

theorem step_addTask_nextId (s : SysState) (o : TrackableObjectReference)
    (fd : Nat) :
    (step s (Event.addTask o fd)).1.worker.nextId_
      = s.worker.nextId_ + 1 := by
  cases hs : s.worker.stopped <;> simp [step, hs]

theorem step_shutdown_stopped (s : SysState) :
    (step s Event.shutdown).1.worker.stopped = true := by
  cases hs : s.worker.stopped <;> simp [step, hs]

theorem step_shutdown_no_callback (s : SysState) (id : Nat) :
    (step s Event.shutdown).2.countP (isCallbackFor id) = 0 := by
  cases hs : s.worker.stopped
  · rw [step_shutdown s hs]
    dsimp only
    rw [List.countP_map]
    have hz : (isCallbackFor id ∘ fun t =>
        Action.fdClosed t.id_ t.fd_ ExecThread.worker)
          = fun _ : DataOfferTask => false := by
      funext t; rfl
    rw [hz]
    simp
  · rw [(step_stopped s _ hs).1]
    simp

theorem step_stopped_empty (s : SysState) (e : Event)
    (h : s.worker.stopped = true → s.worker.tasks_ = []) :
    (step s e).1.worker.stopped = true →
      (step s e).1.worker.tasks_ = [] := by
  cases hs : s.worker.stopped
  case true =>
    obtain ⟨-, hstop, hts, -⟩ := step_stopped s e hs
    intro hq
    rw [hts]
    exact h hs
  case false =>
    cases e
    case addTask o fd =>
      rw [step_addTask s o fd hs]
      intro hq
      exact absurd hq (by simp)
    case removeTask id0 =>
      cases hfind : findTask s.worker.tasks_ id0
      case none =>
        rw [step_removeTask_none s id0 hs hfind]
        intro hq
        exact absurd hq (by simp [hs])
      case some t =>
        rw [step_removeTask_some s id0 t hs hfind]
        intro hq
        exact absurd hq (by simp [hs])
    case ioChunk id0 bytes =>
      rw [step_ioChunk s id0 bytes hs]
      intro hq
      exact absurd hq (by simp [hs])
    case ioEof id0 =>
      rw [step_ioEof s id0 hs]
      cases hfind : findTask s.worker.tasks_ id0
      case none =>
        rw [finalizeTask_none s id0 hfind]
        intro hq
        exact absurd hq (by simp [hs])
      case some t =>
        rw [finalizeTask_some s id0 t hfind]
        intro hq
        exact absurd hq (by simp [hs])
    case timeout id0 =>
      rw [step_timeout s id0 hs]
      cases hfind : findTask s.worker.tasks_ id0
      case none =>
        rw [finalizeTask_none s id0 hfind]
        intro hq
        exact absurd hq (by simp [hs])
      case some t =>
        rw [finalizeTask_some s id0 t hfind]
        intro hq
        exact absurd hq (by simp [hs])
    case destroyOffer slot =>
      rw [step_destroyOffer s slot hs]
      intro hq
      exact absurd hq (by simp [hs])
    case shutdown =>
      rw [step_shutdown s hs]
      intro hq
      rfl

theorem run_stopped_empty (s : SysState) (evs : List Event)
    (h : s.worker.stopped = true → s.worker.tasks_ = []) :
    (run s evs).1.worker.stopped = true →
      (run s evs).1.worker.tasks_ = [] := by
  induction evs generalizing s with
  | nil => exact h
  | cons e es ih => exact ih (step s e).1 (step_stopped_empty s e h)


theorem idsIssued_cons (s : SysState) (e : Event) (es : List Event) :
    idsIssued s (e :: es) =
      match e with
      | Event.addTask _ _ => s.worker.nextId_ :: idsIssued (step s e).1 es
      | _ => idsIssued (step s e).1 es := by
  cases e <;> rfl

theorem idsIssued_lb (s : SysState) (evs : List Event) :
    ∀ i ∈ idsIssued s evs, s.worker.nextId_ ≤ i := by
  induction evs generalizing s with
  | nil => simp [idsIssued]
  | cons e es ih =>
      rw [idsIssued_cons]
      cases e
      case addTask o fd =>
        intro i hi
        rcases List.mem_cons.mp hi with rfl | hmem
        · exact le_refl _
        · exact le_trans (step_nextId_le s _) (ih (step s _).1 i hmem)
      all_goals
        intro i hi
        exact le_trans (step_nextId_le s _) (ih (step s _).1 i hi)

theorem idsIssued_pairwise (s : SysState) (evs : List Event) :
    List.Pairwise (· < ·) (idsIssued s evs) := by
  induction evs generalizing s with
  | nil => exact List.Pairwise.nil
  | cons e es ih =>
      rw [idsIssued_cons]
      cases e
      case addTask o fd =>
        refine List.pairwise_cons.mpr ⟨?_, ih (step s _).1⟩
        intro j hj
        have hged := idsIssued_lb (step s (Event.addTask o fd)).1 es j hj
        rw [step_addTask_nextId s o fd] at hged
        omega
      all_goals exact ih (step s _).1


theorem initState_wf (offers : OfferTable) : WF (initState offers) := by
  refine ⟨le_refl _, ?_, ?_⟩ <;> simp [initState]

/-- C1: if the owning `DataOffer` of a read task is destroyed before the task
completes, the worker's finalize step resolves the task's generation-checked
weak reference, finds it stale, and silently drops the result: the stored
callback is never invoked (the only action is the fd close on the worker
thread, so the worker does not crash), and the task is removed from the
registry with its fd closed. -/
theorem stale_offer_finalize_drops (s : SysState) (t : DataOfferTask)
    (id : Nat) (hs : s.worker.stopped = false)
    (hfind : findTask s.worker.tasks_ id = some t)
    (hstale : isValid s.offers t.offer_ = false) :
    (step s (Event.ioEof id)).2
        = [Action.fdClosed id t.fd_ ExecThread.worker] ∧
      findTask (step s (Event.ioEof id)).1.worker.tasks_ id = none := by
  rw [step_ioEof s id hs, finalizeTask_some s id t hfind, hstale]
  dsimp only
  exact ⟨rfl, findTask_eraseTask_self _ _⟩

theorem stale_offer_finalize_drops_witness :
    (step ⟨⟨2, [⟨1, ⟨0, 0⟩, 5, [104]⟩], false⟩, []⟩ (Event.ioEof 1)).2
        = [Action.fdClosed 1 5 ExecThread.worker] ∧
      findTask (step ⟨⟨2, [⟨1, ⟨0, 0⟩, 5, [104]⟩], false⟩, []⟩
          (Event.ioEof 1)).1.worker.tasks_ 1 = none :=
  stale_offer_finalize_drops ⟨⟨2, [⟨1, ⟨0, 0⟩, 5, [104]⟩], false⟩, []⟩
    ⟨1, ⟨0, 0⟩, 5, [104]⟩ 1 rfl rfl rfl

/-- C2: once the `removeTask` message for a task id has been processed on
the worker thread, no callback is ever delivered for that id: the removal
step itself emits no callback (it moves a still-pending task straight out of
the registry, bypassing delivery), and no sequence of later events produces
a callback for that id either. -/
theorem no_callback_after_removeTask (s : SysState) (id : Nat)
    (evs : List Event) (hwf : WF s) (hid : id < s.worker.nextId_) :
    (step s (Event.removeTask id)).2.countP (isCallbackFor id) = 0 ∧
      (run (step s (Event.removeTask id)).1 evs).2.countP
        (isCallbackFor id) = 0 := by
  cases hs : s.worker.stopped
  case false =>
    constructor
    · cases hfind : findTask s.worker.tasks_ id
      case none =>
        rw [step_removeTask_none s id hs hfind]
        simp
      case some t =>
        rw [step_removeTask_some s id t hs hfind]
        simp [isCallbackFor]
    · have hwf2 := step_wf s (Event.removeTask id) hwf
      have hreg : inReg (step s (Event.removeTask id)).1 id = false := by
        cases hfind : findTask s.worker.tasks_ id
        case none =>
          rw [step_removeTask_none s id hs hfind]
          simpa [inReg] using congrArg Option.isSome hfind
        case some t =>
          rw [step_removeTask_some s id t hs hfind]
          simp [inReg, findTask_eraseTask_self]
      have hid2 : id < (step s (Event.removeTask id)).1.worker.nextId_ :=
        lt_of_lt_of_le hid (step_nextId_le s _)
      exact (run_dead0 _ evs id hwf2 hreg hid2).1
  case true =>
    obtain ⟨ha, hstop, -, -⟩ := step_stopped s (Event.removeTask id) hs
    constructor
    · rw [ha]
      simp
    · rw [(run_stopped _ evs hstop).1]
      simp

theorem no_callback_after_removeTask_witness :
    WF ⟨⟨2, [⟨1, ⟨0, 0⟩, 5, []⟩], false⟩, [(0, 0)]⟩ ∧
      1 < (⟨⟨2, [⟨1, ⟨0, 0⟩, 5, []⟩], false⟩, [(0, 0)]⟩ :
        SysState).worker.nextId_ ∧
      ((step ⟨⟨2, [⟨1, ⟨0, 0⟩, 5, []⟩], false⟩, [(0, 0)]⟩
          (Event.removeTask 1)).2.countP (isCallbackFor 1) = 0 ∧
        (run (step ⟨⟨2, [⟨1, ⟨0, 0⟩, 5, []⟩], false⟩, [(0, 0)]⟩
            (Event.removeTask 1)).1
          [Event.ioEof 1, Event.timeout 1]).2.countP (isCallbackFor 1) = 0) :=
  ⟨by decide, by decide,
   no_callback_after_removeTask ⟨⟨2, [⟨1, ⟨0, 0⟩, 5, []⟩], false⟩, [(0, 0)]⟩
     1 [Event.ioEof 1, Event.timeout 1] (by decide) (by decide)⟩

/-- C3: the ids returned by the `addTask` calls of any event sequence on one
reader thread are each at least 1, strictly increasing in request order, and
never reused (pairwise distinct) during that worker's lifetime. -/
theorem addTask_ids_monotone (s : SysState) (evs : List Event)
    (h1 : 1 ≤ s.worker.nextId_) :
    List.Chain' (· < ·) (idsIssued s evs) ∧
      (∀ i ∈ idsIssued s evs, 1 ≤ i) ∧ (idsIssued s evs).Nodup := by
  have hpw := idsIssued_pairwise s evs
  refine ⟨hpw.chain', ?_, ?_⟩
  · intro i hi
    exact le_trans h1 (idsIssued_lb s evs i hi)
  · exact hpw.imp (fun hab => Nat.ne_of_lt hab)

theorem addTask_ids_monotone_witness :
    1 ≤ (initState []).worker.nextId_ ∧
      (List.Chain' (· < ·)
          (idsIssued (initState [])
            [Event.addTask ⟨0, 0⟩ 3, Event.addTask ⟨0, 1⟩ 4]) ∧
        (∀ i ∈ idsIssued (initState [])
            [Event.addTask ⟨0, 0⟩ 3, Event.addTask ⟨0, 1⟩ 4], 1 ≤ i) ∧
        (idsIssued (initState [])
            [Event.addTask ⟨0, 0⟩ 3, Event.addTask ⟨0, 1⟩ 4]).Nodup) :=
  ⟨by decide,
   addTask_ids_monotone (initState [])
     [Event.addTask ⟨0, 0⟩ 3, Event.addTask ⟨0, 1⟩ 4] (by decide)⟩

/-- C4: for every task id (each `receiveData` call creates at most one
task), the stored callback is delivered at most once over any event
sequence, and every callback delivery in the trace is marshalled to the main
thread — none happens on the worker thread. -/
theorem callback_once_on_main (s : SysState) (evs : List Event) (id : Nat)
    (hwf : WF s) :
    (run s evs).2.countP (isCallbackFor id) ≤ 1 ∧
      callbacksOnMain (run s evs).2 = true :=
  ⟨run_cb1 s evs id hwf, (run_threads s evs).1⟩

theorem callback_once_on_main_witness :
    WF (initState [(0, 0)]) ∧
      ((run (initState [(0, 0)])
          [Event.addTask ⟨0, 0⟩ 5, Event.ioChunk 1 [104],
           Event.ioEof 1]).2.countP (isCallbackFor 1) ≤ 1 ∧
        callbacksOnMain (run (initState [(0, 0)])
          [Event.addTask ⟨0, 0⟩ 5, Event.ioChunk 1 [104],
           Event.ioEof 1]).2 = true) :=
  ⟨initState_wf [(0, 0)],
   callback_once_on_main (initState [(0, 0)])
     [Event.addTask ⟨0, 0⟩ 5, Event.ioChunk 1 [104], Event.ioEof 1] 1
     (initState_wf [(0, 0)])⟩

/-- C5: fd lifecycle from a fresh pipeline: for every task id, the number of
fd closes plus its still-pending registry entry equals the number of task
creations — so a task never outlives its fd ownership and the fd of every
completed or cancelled task is closed exactly once, at finalize or at
cancellation but never both (closes never exceed one), and every close
happens on the worker thread. -/
theorem fd_closed_exactly_once (offers : OfferTable) (evs : List Event)
    (id : Nat) :
    (run (initState offers) evs).2.countP (isCloseFor id)
        + (inReg (run (initState offers) evs).1 id).toNat
      = (run (initState offers) evs).2.countP (isCreateFor id) ∧
      (run (initState offers) evs).2.countP (isCloseFor id) ≤ 1 ∧
      closesOnWorker (run (initState offers) evs).2 = true := by
  have hwf := initState_wf offers
  have hcons := run_conserve (initState offers) evs id hwf
  have hreg : inReg (initState offers) id = false := rfl
  rw [hreg] at hcons
  simp only [Bool.toNat_false, Nat.add_zero] at hcons
  exact ⟨hcons, run_close1 _ evs id hwf, (run_threads _ evs).2⟩


/-- C6: worker shutdown cancels all still-pending tasks before the loop
exits: the shutdown step delivers no callback, every event processed after
shutdown produces no action at all (zero callbacks fire afterwards), and
over the whole trace every created task id has its fd closed exactly once
(closes equal creations once shutdown has drained the registry; with three
tasks pending at shutdown, all three fds are closed and no callback fires). -/
theorem shutdown_drains (offers : OfferTable) (evs evs2 : List Event)
    (id : Nat) :
    (run (run (initState offers) (evs ++ [Event.shutdown])).1 evs2).2 = [] ∧
      (step (run (initState offers) evs).1 Event.shutdown).2.countP
        (isCallbackFor id) = 0 ∧
      (run (initState offers) (evs ++ [Event.shutdown])).2.countP
          (isCloseFor id)
        = (run (initState offers) (evs ++ [Event.shutdown])).2.countP
            (isCreateFor id) := by
  have hwf := initState_wf offers
  have h1 : (run (initState offers) (evs ++ [Event.shutdown])).1
      = (step (run (initState offers) evs).1 Event.shutdown).1 := by
    rw [run_append, run_cons_ev, run_nil]
  have hstop : (run (initState offers)
      (evs ++ [Event.shutdown])).1.worker.stopped = true := by
    rw [h1]
    exact step_shutdown_stopped _
  have hempty : (run (initState offers)
      (evs ++ [Event.shutdown])).1.worker.tasks_ = [] := by
    refine run_stopped_empty (initState offers) (evs ++ [Event.shutdown])
      ?_ hstop
    intro h
    exact absurd h (by simp [initState])
  refine ⟨(run_stopped _ evs2 hstop).1, step_shutdown_no_callback _ id, ?_⟩
  have hcons := run_conserve (initState offers) (evs ++ [Event.shutdown])
    id hwf
  have hreg0 : inReg (initState offers) id = false := rfl
  have hregend : inReg (run (initState offers)
      (evs ++ [Event.shutdown])).1 id = false := by
    simp [inReg, hempty, findTask]
  rw [hreg0, hregend] at hcons
  simpa using hcons

/-- C7: `receiveData` on an offer whose advertised MIME set contains no
acceptable type invokes the callback immediately with empty bytes and
isPassword = false, and creates no read task in the worker. -/
theorem no_acceptable_mime (mimes : List String)
    (h : selectMime mimes = none) :
    receiveData mimes = ReceiveOutcome.immediate [] false := by
  simp [receiveData, h]

theorem no_acceptable_mime_witness :
    selectMime ["image/png"] = none ∧
      receiveData ["image/png"] = ReceiveOutcome.immediate [] false :=
  ⟨by decide, no_acceptable_mime ["image/png"] (by decide)⟩

/-- C8: the MIME type to read is selected from the advertised set by the
fixed preference order with UTF-8 text first (advertising UTF-8 text always
selects it over the other text types), and if any advertised MIME matches
the password-hint identifier then the outcome latches isPassword = true
before any data is read, so the delivered callback reports isPassword = true
regardless of the payload content. -/
theorem mime_preference_and_password (mimes : List String)
    (payload : List Nat) :
    ("text/plain;charset=utf-8" ∈ mimes →
        selectMime mimes = some "text/plain;charset=utf-8") ∧
      (passwordHintMime ∈ mimes →
        (∃ m, receiveData mimes = ReceiveOutcome.startTask m true) ∧
          (deliveredResult (receiveData mimes) payload).2 = true) := by
  constructor
  · intro h
    simp [selectMime, mimePreference, List.find?, h]
  · intro h
    cases hsel : selectMime mimes with
    | none =>
        exfalso
        have hall := List.find?_eq_none.mp hsel passwordHintMime
          (by simp [mimePreference])
        simp at hall
        exact hall h
    | some m =>
        refine ⟨⟨m, ?_⟩, ?_⟩
        · simp [receiveData, hsel, h]
        · simp [receiveData, hsel, h, deliveredResult]

theorem mime_preference_and_password_witness :
    (selectMime ["text/plain;charset=utf-8", "text/html"]
        = some "text/plain;charset=utf-8") ∧
      ((∃ m, receiveData [passwordHintMime]
          = ReceiveOutcome.startTask m true) ∧
        (deliveredResult (receiveData [passwordHintMime]) [104]).2 = true) :=
  ⟨(mime_preference_and_password ["text/plain;charset=utf-8", "text/html"]
      []).1 (List.mem_cons_self _ _),
   (mime_preference_and_password [passwordHintMime] [104]).2
     (List.mem_cons_self _ _)⟩

/-- C9: a task whose fd yields a byte sequence chunk by chunk and then EOF,
with no cancellation or timeout in between, has each bounded chunk appended
to its buffer on the corresponding wake-up, and — however many partial-read
wake-ups occur — the trace is exactly one finalize callback on the main
thread whose payload is the task's buffer followed by the concatenation of
all chunks, plus the single fd close on the worker thread. -/
theorem eof_finalizes_once_with_payload (s : SysState) (t : DataOfferTask)
    (id : Nat) (cs : List (List Nat)) (hs : s.worker.stopped = false)
    (hfind : findTask s.worker.tasks_ id = some t)
    (hvalid : isValid s.offers t.offer_ = true) :
    (run s (cs.map (Event.ioChunk id) ++ [Event.ioEof id])).2
      = [Action.callbackFired id (t.data_ ++ cs.flatten) ExecThread.main,
         Action.fdClosed id t.fd_ ExecThread.worker] := by
  induction cs generalizing s t with
  | nil =>
      simp only [List.map_nil, List.nil_append]
      rw [run_cons_ev, run_nil]
      dsimp only
      rw [step_ioEof s id hs, finalizeTask_some s id t hfind, hvalid]
      simp
  | cons c cs ih =>
      simp only [List.map_cons, List.cons_append]
      rw [run_cons_ev, step_ioChunk s id c hs]
      dsimp only
      have hfind2 : findTask (updateTask s.worker.tasks_ id
          (fun u => { u with data_ := u.data_ ++ c })) id
            = some { t with data_ := t.data_ ++ c } := by
        rw [findTask_updateTask_self s.worker.tasks_ id
              (fun u => { u with data_ := u.data_ ++ c }) (fun u => rfl),
            hfind]
        rfl
      exact Eq.trans
        (ih ⟨{ s.worker with
               tasks_ := (updateTask s.worker.tasks_ id
                 (fun u => { u with data_ := u.data_ ++ c })) }, s.offers⟩
            { t with data_ := t.data_ ++ c } hs hfind2 hvalid)
        (by simp [List.append_assoc])

theorem eof_finalizes_once_witness :
    (run ⟨⟨2, [⟨1, ⟨0, 0⟩, 5, []⟩], false⟩, [(0, 0)]⟩
        (([[104], [105]].map (Event.ioChunk 1)) ++ [Event.ioEof 1])).2
      = [Action.callbackFired 1 ([] ++ [[104], [105]].flatten) ExecThread.main,
         Action.fdClosed 1 5 ExecThread.worker] :=
  eof_finalizes_once_with_payload
    ⟨⟨2, [⟨1, ⟨0, 0⟩, 5, []⟩], false⟩, [(0, 0)]⟩
    ⟨1, ⟨0, 0⟩, 5, []⟩ 1 [[104], [105]] rfl rfl rfl

/-- C10: the destructor of `DataReaderThread` schedules the loop-exit
message and joins only when a joinable worker thread object exists; if
`start()` was never called — as in a freshly constructed reader, whose
`thread_` is null — or the thread is not joinable, destruction performs no
cross-thread scheduling and no join, so construction followed immediately by
destruction is safe. -/
theorem dtor_safe_without_start (s : ThreadLifecycle)
    (h : ∀ t, s.thread_ = some t → t.joinable = false) :
    destructorOps newReaderThread = [] ∧ destructorOps s = [] := by
  refine ⟨rfl, ?_⟩
  cases hs : s.thread_ with
  | none => simp [destructorOps, hs]
  | some t => simp [destructorOps, hs, h t hs]

theorem dtor_safe_without_start_witness :
    (∀ t, (newReaderThread).thread_ = some t → t.joinable = false) ∧
      (destructorOps newReaderThread = [] ∧
        destructorOps newReaderThread = []) :=
  ⟨(fun t ht => by cases ht),
   dtor_safe_without_start newReaderThread (fun t ht => by cases ht)⟩

end WaylandClipboard
